import Mathlib

/-!
Verification of the verse-search core of a client-side Quran search
application (`script.js`).

The development shallowly embeds the program's core:

* JavaScript numbers are modelled exactly: rationals stand for the float
  values that actually arise, and `Option` wraps a value that may instead
  be `NaN` (`none` = NaN).  Addition, multiplication, subtraction and the
  cosine computation propagate NaN exactly as IEEE-754 does on these
  inputs.  Rounding is abstracted (all concrete values in the claims stay
  exact), but NaN production — the part the claims turn on — is kept.
* JavaScript strings are lists of characters (`Str`), `toLowerCase` maps
  `Char.toLower` over them, and `String.prototype.includes` is the
  `charsContains` substring test.
* `Array.prototype.sort` with a comparator is a stable merge sort
  (ECMAScript requires a stable sort); a comparator returning NaN is
  treated as `0` ("keep relative order"), exactly as `SortCompare`
  prescribes.
* The mutable globals of the script (`queryEmbeddingCache`, `embedder`,
  query counter used for instrumentation) become an explicit `AppState`
  threaded through `getQueryEmbedding`, with a `Reachable` predicate for
  the states the browser session can actually be in.  The cache is the
  object literal `{}`, so a property read `queryEmbeddingCache[query]`
  sees not only the stored own properties but also the truthy members
  `{}` inherits from `Object.prototype` (`"toString"`, `"constructor"`,
  ...); `cacheRead` models the full lookup, prototype chain included.
* The DOM / rendering statements of the script are ignored; only the data
  each function computes is modelled.
-/

set_option maxRecDepth 8000

/-- JavaScript strings, modelled as lists of characters. -/
abbrev Str := List Char

/-- JS `x + y` on numbers-or-NaN (`none` = NaN; NaN propagates). -/
def jsAdd {α : Type} [Add α] : Option α → Option α → Option α
  | some x, some y => some (x + y)
  | _, _ => none

/-- JS `x * y` on numbers-or-NaN (`none` = NaN; NaN propagates). -/
def jsMul {α : Type} [Mul α] : Option α → Option α → Option α
  | some x, some y => some (x * y)
  | _, _ => none

/-- JS `x - y` on numbers-or-NaN (`none` = NaN; NaN propagates). -/
def jsSub {α : Type} [Sub α] : Option α → Option α → Option α
  | some x, some y => some (x - y)
  | _, _ => none

/-- `String.prototype.toLowerCase`, per character. -/
def jsToLowerChars (s : Str) : Str := s.map Char.toLower

/-- Helper for `charsContains`: does `needle` sit at the head of `hay`? -/
def charsStartWith : Str → Str → Bool
  | _, [] => true
  | [], _ :: _ => false
  | a :: hay, b :: needle => a == b && charsStartWith hay needle

/-- `String.prototype.includes`: does `needle` occur inside `hay`? -/
def charsContains : Str → Str → Bool
  | [], needle => needle.isEmpty
  | a :: hay, needle => charsStartWith (a :: hay) needle || charsContains hay needle

/-- The `embedding` field of a verse as found in the loaded JSON: it can be
absent (`undefined`/`null`, falsy in JS), present but not an array, or an
array of numbers.  (An array with non-numeric entries behaves, wherever it
is consumed arithmetically, like an array whose reads yield NaN; the claims
below only ever need the wrong-dimension case, which is representable
directly.) -/
inductive JSEmbedding : Type
  | missing : JSEmbedding
  | nonArray : JSEmbedding
  | arr (v : List ℚ) : JSEmbedding
deriving DecidableEq

/-- A verse as it appears inside a surah of `quran_with_embeddings.json`. -/
structure QVerse where
  id : ℕ
  text : Str
  translation : Str
  embedding : JSEmbedding
deriving DecidableEq

/-- A surah record of the corpus JSON. -/
structure Surah where
  name : Str
  transliteration : Str
  translation : Str
  type : Str
  total_verses : ℕ
  verses : List QVerse
deriving DecidableEq

/-- An entry of `allVersesWithEmbeddings`, as pushed by `loadQuranData`. -/
structure FlatVerse where
  surah_id : ℕ
  surah_name : Str
  surah_english : Str
  verse_id : ℕ
  text_arabic : Str
  text_translation : Str
  embedding : JSEmbedding
deriving DecidableEq

/-- The object literal pushed by the flattening loop of `loadQuranData` for
the verse `verse` of the surah `surah` sitting at 0-based position
`surahIndex`: `surah_id` is `surahIndex + 1`, while `verse_id` is copied
from the stored field `verse.id`. -/
def mkFlatVerse (surahIndex : ℕ) (surah : Surah) (verse : QVerse) : FlatVerse :=
  { surah_id := surahIndex + 1
    surah_name := surah.name
    surah_english := surah.transliteration
    verse_id := verse.id
    text_arabic := verse.text
    text_translation := verse.translation
    embedding := verse.embedding }

/-- The flattening loop of `loadQuranData`:
`quranData.surahs.forEach((surah, surahIndex) => surah.verses.forEach(verse
=> allVersesWithEmbeddings.push({...})))`, starting from the empty array.
Modelled as left folds that append one element per `push`. -/
def flattenVerses (surahs : List Surah) : List FlatVerse :=
  surahs.enum.foldl
    (fun acc p => p.2.verses.foldl (fun acc2 v => acc2 ++ [mkFlatVerse p.1 p.2 v]) acc)
    []

/-- Mathematical restatement of the flattening loop: concatenate, in surah
order, the verses of each surah tagged with their surah context. -/
def flattenSpec (surahs : List Surah) : List FlatVerse :=
  surahs.enum.flatMap fun p => p.2.verses.map (mkFlatVerse p.1 p.2)

/-- Number of flattened entries contributed by the surahs strictly before
0-based surah position `i`. -/
def chapterOffset (surahs : List Surah) (i : ℕ) : ℕ :=
  ((surahs.take i).map fun s => s.verses.length).sum

/-- The body of the `for` loop of `cosineSimilarity` at index `i`, updating
the accumulator `(dotProduct, normA, normB)`.  `a[i]` out of range is JS
`undefined`, which behaves as NaN in every arithmetic use here, so both are
`none`. -/
def cosStep (a b : List ℚ) (acc : Option ℚ × Option ℚ × Option ℚ) (i : ℕ) :
    Option ℚ × Option ℚ × Option ℚ :=
  (jsAdd acc.1 (jsMul a[i]? b[i]?),
   jsAdd acc.2.1 (jsMul a[i]? a[i]?),
   jsAdd acc.2.2 (jsMul b[i]? b[i]?))

/-- The first `n` iterations of the loop of `cosineSimilarity`. -/
def cosLoopN (a b : List ℚ) (n : ℕ) : Option ℚ × Option ℚ × Option ℚ :=
  (List.range n).foldl (cosStep a b) (some 0, some 0, some 0)

/-- The full loop of `cosineSimilarity`: `for (let i = 0; i < a.length; i++)`. -/
def cosLoop (a b : List ℚ) : Option ℚ × Option ℚ × Option ℚ := cosLoopN a b a.length

/-- The `return` of `cosineSimilarity`:
`dotProduct / (Math.sqrt(normA) * Math.sqrt(normB))`.
If any accumulator is NaN the result is NaN (`Math.sqrt(NaN) = NaN`, and
NaN propagates through `*` and `/`).  When all are numbers the two norms
are sums of squares, hence nonnegative, so the square roots are real; if
the denominator is `0` then (exactly, see `cosLoop_dot_zero_of_normA_zero`)
the numerator is `0` as well, and JS `0 / 0` is NaN, i.e. `none`. -/
noncomputable def cosFinish : Option ℚ × Option ℚ × Option ℚ → Option ℝ
  | (some d, some nA, some nB) =>
      if Real.sqrt (nA : ℝ) * Real.sqrt (nB : ℝ) = 0 then none
      else some ((d : ℝ) / (Real.sqrt (nA : ℝ) * Real.sqrt (nB : ℝ)))
  | _ => none

/-- `cosineSimilarity(a, b)` from `script.js`. -/
noncomputable def cosineSimilarity (a b : List ℚ) : Option ℝ :=
  cosFinish (cosLoop a b)

/-- The filter of `semanticSearch`:
`verse.embedding && Array.isArray(verse.embedding)` — truthy and an array. -/
def passesFilter (v : FlatVerse) : Bool :=
  match v.embedding with
  | JSEmbedding.arr _ => true
  | _ => false

/-- The array held by an `arr` embedding (only ever used after
`passesFilter`, whose other branches are unreachable there). -/
def embedArr : JSEmbedding → List ℚ
  | JSEmbedding.arr v => v
  | _ => []

/-- The `similarities` array of `semanticSearch`: filter, then pair each
verse with its relevance. -/
noncomputable def scoredList (q : List ℚ) (idx : List FlatVerse) :
    List (FlatVerse × Option ℝ) :=
  (idx.filter passesFilter).map fun v => (v, cosineSimilarity q (embedArr v.embedding))

/-- The order used by `similarities.sort((a, b) => b.relevance - a.relevance)`:
`x` may stay before `y` iff `SortCompare` on `(x, y)` is `≤ 0`.  Per the
ECMAScript `SortCompare`, a comparator result of NaN is treated as `+0`,
i.e. "keep relative order". -/
noncomputable def jsCompareLe (x y : FlatVerse × Option ℝ) : Bool :=
  match jsSub y.2 x.2 with
  | none => true
  | some d => decide (d ≤ 0)

/-- The sorted `similarities` array.  `Array.prototype.sort` is required to
be stable; the reference stable sort is `List.mergeSort`. -/
noncomputable def sortedScored (q : List ℚ) (idx : List FlatVerse) :
    List (FlatVerse × Option ℝ) :=
  (scoredList q idx).mergeSort jsCompareLe

/-- `semanticSearch(query, topK)` after the query embedding is known:
score, sort, `slice(0, topK)`. -/
noncomputable def semanticSearch (q : List ℚ) (idx : List FlatVerse) (k : ℕ) :
    List (FlatVerse × Option ℝ) :=
  (sortedScored q idx).take k

/-- Errors `getQueryEmbedding` can raise in the model: the
`throw new Error('AI model not loaded yet...')` branch. -/
inductive EmbedError : Type
  | modelNotReady : EmbedError
deriving DecidableEq

/-- The names of the properties a fresh object literal `{}` inherits from
`Object.prototype` (including the Annex B accessors every browser ships).
A property read `queryEmbeddingCache[key]` for one of these keys yields
the inherited member — a function, or an object for `"__proto__"` — and
every such member is truthy. -/
def protoKeys : List Str :=
  ["constructor", "hasOwnProperty", "isPrototypeOf", "propertyIsEnumerable",
   "toLocaleString", "toString", "valueOf", "__proto__", "__defineGetter__",
   "__defineSetter__", "__lookupGetter__", "__lookupSetter__"].map String.toList

/-- A truthy value the cache check of `getQueryEmbedding` can produce: an
embedding array stored as an own property (arrays are always truthy), or a
member inherited from `Object.prototype` (a function or object — truthy,
and not a vector; the model needs no finer distinction).  The falsy read,
JS `undefined`, is `none` of `Option JSCacheValue`. -/
inductive JSCacheValue : Type
  | vec (v : List ℚ) : JSCacheValue
  | protoMember : JSCacheValue
deriving DecidableEq

/-- The property read `queryEmbeddingCache[query]`: the own property if one
was stored, else the inherited `Object.prototype` member if `query` names
one, else `undefined`.  Own properties shadow the prototype.  (No own
property is ever created under a `protoKeys` name: the truthy inherited
hit makes `getQueryEmbedding` return before its store — which for
`"__proto__"` would not even create an own property but fire the inherited
setter — so that store is unreachable for those keys.) -/
def cacheRead (cache : List (Str × List ℚ)) (q : Str) : Option JSCacheValue :=
  match cache.lookup q with
  | some v => some (JSCacheValue.vec v)
  | none => if q ∈ protoKeys then some JSCacheValue.protoMember else none

/-- The mutable globals touched by `getQueryEmbedding`:
`queryEmbeddingCache` (the own string-keyed properties of the object
literal; reads go through `cacheRead`, which adds the prototype chain),
`embedder` (null until `initializeModel` succeeds, then the pipeline,
modelled as the text-to-vector function it computes), and an
instrumentation counter of how many times the underlying model was run. -/
structure AppState where
  cache : List (Str × List ℚ)
  embedder : Option (Str → List ℚ)
  modelCalls : ℕ

/-- `getQueryEmbedding(query)`:
`if (queryEmbeddingCache[query]) return queryEmbeddingCache[query]` — any
truthy property read, own or inherited, is returned as-is; otherwise fail
if the model is not loaded; otherwise run the model, store the vector as
an own property of the cache and return it. -/
def getQueryEmbedding (s : AppState) (q : Str) : Except EmbedError JSCacheValue × AppState :=
  match cacheRead s.cache q with
  | some v => (Except.ok v, s)
  | none =>
    match s.embedder with
    | none => (Except.error EmbedError.modelNotReady, s)
    | some f =>
      (Except.ok (JSCacheValue.vec (f q)),
       { cache := (q, f q) :: s.cache, embedder := s.embedder, modelCalls := s.modelCalls + 1 })

/-- The state of the script right after load: empty cache, no embedder. -/
def initialState : AppState :=
  { cache := [], embedder := none, modelCalls := 0 }

/-- States a browser session can reach: the initial state, any number of
`getQueryEmbedding` calls, and the completion of `initializeModel`
(which sets `embedder`; a failed initialization leaves the state
unchanged, so it needs no constructor). -/
inductive Reachable : AppState → Prop
  | start : Reachable initialState
  | embedCall (s : AppState) (q : Str) : Reachable s → Reachable (getQueryEmbedding s q).2
  | modelReady (s : AppState) (f : Str → List ℚ) :
      Reachable s → Reachable { cache := s.cache, embedder := some f, modelCalls := s.modelCalls }

/-- The `matches` array of `keywordSearchAndDisplay`:
`allVersesWithEmbeddings.filter(verse =>
verse.text_translation.toLowerCase().includes(lowerQuery))` with
`lowerQuery = searchTerm.toLowerCase()`. -/
def keywordMatches (idx : List FlatVerse) (term : Str) : List FlatVerse :=
  idx.filter fun v => charsContains (jsToLowerChars v.text_translation) (jsToLowerChars term)

/-- Outcome of a keyword search: a rendered result list, or the
"No results found" screen. -/
inductive KeywordOutcome : Type
  | results (l : List FlatVerse) : KeywordOutcome
  | noResults : KeywordOutcome
deriving DecidableEq

/-- `keywordSearchAndDisplay` followed by `displayKeywordResults`:
if any verse matches, display `matches.slice(0, 50)`; otherwise show the
no-results screen (an ordinary outcome, no exception). -/
def keywordSearchAndDisplay (idx : List FlatVerse) (term : Str) : KeywordOutcome :=
  let ms := keywordMatches idx term
  if 0 < ms.length then KeywordOutcome.results (ms.take 50)
  else KeywordOutcome.noResults

/-- Spec-side notion (from the specification text, not the code) of a
verse translation containing the query as a case-insensitive substring:
some contiguous piece of the translation equals the query up to letter
case. -/
def specCIContains (hay q : Str) : Prop :=
  ∃ pre mid suf, hay = pre ++ mid ++ suf ∧ jsToLowerChars mid = jsToLowerChars q

/-- Spec-side notion (from the specification text, not the code) of a
"valid embedding": a numeric vector of the expected dimensionality `D`.
The code's own filter is `passesFilter`, which is weaker. -/
def specValidEmbedding (D : ℕ) : JSEmbedding → Bool
  | JSEmbedding.arr v => v.length == D
  | _ => false

/-- Reading inside the bounds of a list yields `some` of its `getD` value. -/
theorem getElem?_eq_some_getD {l : List ℚ} {n : ℕ} (h : n < l.length) :
    l[n]? = some (l.getD n 0) := by
  rw [List.getElem?_eq_getElem h, List.getD_eq_getElem?_getD, List.getElem?_eq_getElem h]
  rfl

/-- Closed form of the loop of `cosineSimilarity` while every index is in
range for both vectors: all three accumulators are genuine numbers, namely
the partial dot product and the two partial sums of squares. -/
theorem cosLoopN_eq (a b : List ℚ) (n : ℕ) (ha : n ≤ a.length) (hb : n ≤ b.length) :
    cosLoopN a b n =
      (some (∑ i ∈ Finset.range n, a.getD i 0 * b.getD i 0),
       some (∑ i ∈ Finset.range n, a.getD i 0 * a.getD i 0),
       some (∑ i ∈ Finset.range n, b.getD i 0 * b.getD i 0)) := by
  induction n with
  | zero => simp [cosLoopN]
  | succ m ih =>
    have hma : m < a.length := lt_of_lt_of_le (Nat.lt_succ_self m) ha
    have hmb : m < b.length := lt_of_lt_of_le (Nat.lt_succ_self m) hb
    have h1 : cosLoopN a b (m + 1) = cosStep a b (cosLoopN a b m) m := by
      unfold cosLoopN
      rw [List.range_succ, List.foldl_append]
      rfl
    rw [h1, ih (le_of_lt hma) (le_of_lt hmb)]
    rw [cosStep, getElem?_eq_some_getD hma, getElem?_eq_some_getD hmb]
    simp [jsAdd, jsMul, Finset.sum_range_succ]

/-- Partial sums of squares are nonnegative. -/
theorem sqSum_nonneg (l : List ℚ) (n : ℕ) :
    0 ≤ ∑ i ∈ Finset.range n, l.getD i 0 * l.getD i 0 :=
  Finset.sum_nonneg fun i _ => mul_self_nonneg (l.getD i 0)

/-- Justification of the NaN modelling of the zero-denominator case of
`cosineSimilarity`: whenever the `normA` accumulator is zero, every entry
of `a` that was read is zero, hence the `dotProduct` accumulator is zero
too — so in JavaScript the division is literally `0 / 0`, which is NaN. -/
theorem cosLoop_dot_zero_of_normA_zero (a b : List ℚ) (n : ℕ)
    (h : ∑ i ∈ Finset.range n, a.getD i 0 * a.getD i 0 = 0) :
    ∑ i ∈ Finset.range n, a.getD i 0 * b.getD i 0 = 0 := by
  have hz : ∀ i ∈ Finset.range n, a.getD i 0 * a.getD i 0 = 0 :=
    (Finset.sum_eq_zero_iff_of_nonneg fun i _ => mul_self_nonneg (a.getD i 0)).1 h
  refine Finset.sum_eq_zero fun i hi => ?_
  have : a.getD i 0 = 0 := by
    have := hz i hi
    nlinarith [this]
  rw [this, zero_mul]

/-- Concrete relevance: query `[1,0]` against embedding `[0,1]` scores `0`. -/
theorem cs_q10_01 : cosineSimilarity [1, 0] [0, 1] = some 0 := by
  have h : cosLoop [(1 : ℚ), 0] [0, 1] = (some 0, some 1, some 1) := by
    simp [cosLoop, cosLoopN, cosStep, jsAdd, jsMul, List.range_succ]
  rw [cosineSimilarity, h]
  simp [cosFinish, Real.sqrt_one]

/-- Concrete relevance: query `[1,0]` against embedding `[1,0]` scores `1`. -/
theorem cs_q10_10 : cosineSimilarity [1, 0] [1, 0] = some 1 := by
  have h : cosLoop [(1 : ℚ), 0] [1, 0] = (some 1, some 1, some 1) := by
    simp [cosLoop, cosLoopN, cosStep, jsAdd, jsMul, List.range_succ]
  rw [cosineSimilarity, h]
  simp [cosFinish, Real.sqrt_one]

/-- Concrete relevance: query `[1,0]` against the all-zero embedding
`[0,0]` is NaN (`0 / (√0 * √1)`, i.e. `0 / 0`). -/
theorem cs_q10_00 : cosineSimilarity [1, 0] [0, 0] = none := by
  have h : cosLoop [(1 : ℚ), 0] [0, 0] = (some 0, some 1, some 0) := by
    simp [cosLoop, cosLoopN, cosStep, jsAdd, jsMul, List.range_succ]
  rw [cosineSimilarity, h]
  simp [cosFinish, Real.sqrt_zero]

/-- Concrete relevance: query `[1,0]` against the one-dimensional embedding
`[1]` is NaN — the loop reads `b[1]`, which is `undefined`. -/
theorem cs_q10_1 : cosineSimilarity [1, 0] [1] = none := by
  have h : cosLoop [(1 : ℚ), 0] [1] = (none, some 1, none) := by
    simp [cosLoop, cosLoopN, cosStep, jsAdd, jsMul, List.range_succ]
  rw [cosineSimilarity, h]
  simp [cosFinish]

/-- Two comparators that agree on all pairs drawn from a list sort it
identically. -/
theorem mergeSort_congr {α : Type} {r s : α → α → Bool} {l : List α}
    (hl : ∀ a ∈ l, ∀ b ∈ l, r a b = s a b) :
    l.mergeSort r = l.mergeSort s := by
  have h := List.map_mergeSort (r := r) (s := s) (f := id) (l := l)
    (by intro a ha b hb; simpa using hl a ha b hb)
  simpa using h

/-- Total order on scored verses by actual relevance value (reading a NaN
relevance as `0`); used to re-express `jsCompareLe` on lists where no
relevance is NaN. -/
noncomputable def leByVal (x y : FlatVerse × Option ℝ) : Bool :=
  decide (y.2.getD 0 ≤ x.2.getD 0)

theorem leByVal_total (a b : FlatVerse × Option ℝ) :
    (leByVal a b || leByVal b a) = true := by
  simp only [leByVal, Bool.or_eq_true, decide_eq_true_eq]
  exact le_total (b.2.getD 0) (a.2.getD 0)

theorem leByVal_transitive (a b c : FlatVerse × Option ℝ)
    (h1 : leByVal a b = true) (h2 : leByVal b c = true) : leByVal a c = true := by
  simp only [leByVal, decide_eq_true_eq] at h1 h2 ⊢
  exact le_trans h2 h1

/-- On scored verses whose relevance is an actual number, the JS comparator
order coincides with `leByVal`. -/
theorem jsCompareLe_eq_leByVal {x y : FlatVerse × Option ℝ}
    (hx : x.2.isSome = true) (hy : y.2.isSome = true) :
    jsCompareLe x y = leByVal x y := by
  obtain ⟨rx, hrx⟩ := Option.isSome_iff_exists.1 hx
  obtain ⟨ry, hry⟩ := Option.isSome_iff_exists.1 hy
  rw [jsCompareLe, leByVal, hrx, hry]
  simp only [jsSub, Option.getD_some]
  exact decide_eq_decide.2 sub_nonpos

/-- One `push` per verse is the same as appending the mapped verse list. -/
theorem foldl_push_eq_append (f : QVerse → FlatVerse) :
    ∀ (verses : List QVerse) (acc : List FlatVerse),
      verses.foldl (fun acc2 v => acc2 ++ [f v]) acc = acc ++ verses.map f := by
  intro verses
  induction verses with
  | nil => intro acc; simp
  | cons v vs ih =>
    intro acc
    simp only [List.foldl_cons, List.map_cons]
    rw [ih (acc ++ [f v])]
    simp

/-- The outer fold of the flattening loop appends each surah's mapped
verse block. -/
theorem foldl_surah_eq_append :
    ∀ (ps : List (ℕ × Surah)) (acc : List FlatVerse),
      ps.foldl
          (fun acc p => p.2.verses.foldl (fun acc2 v => acc2 ++ [mkFlatVerse p.1 p.2 v]) acc)
          acc
        = acc ++ ps.flatMap fun p => p.2.verses.map (mkFlatVerse p.1 p.2) := by
  intro ps
  induction ps with
  | nil => intro acc; simp
  | cons p ps ih =>
    intro acc
    simp only [List.foldl_cons, List.flatMap_cons]
    rw [foldl_push_eq_append, ih]
    simp

/-- The imperative flattening loop computes `flattenSpec`. -/
theorem flattenVerses_eq_spec (surahs : List Surah) :
    flattenVerses surahs = flattenSpec surahs := by
  rw [flattenVerses, flattenSpec, foldl_surah_eq_append]
  simp

/-- Positional form of flattening: the verse at 0-based position `j` of the
surah at 0-based position `i` lands at flat position `chapterOffset + j`,
tagged with that surah context. -/
theorem flattenSpec_aux :
    ∀ (surahs : List Surah) (n i : ℕ) (s : Surah) (j : ℕ) (v : QVerse),
      surahs[i]? = some s → s.verses[j]? = some v →
      ((surahs.enumFrom n).flatMap fun p =>
          p.2.verses.map (mkFlatVerse p.1 p.2))[chapterOffset surahs i + j]?
        = some (mkFlatVerse (n + i) s v) := by
  intro surahs
  induction surahs with
  | nil => intro n i s j v hs; simp at hs
  | cons s0 rest ih =>
    intro n i s j v hs hv
    cases i with
    | zero =>
      have hs0 : s = s0 := by simpa using hs.symm
      subst hs0
      have hj : j < s.verses.length := by
        by_contra hcon
        rw [List.getElem?_eq_none (Nat.le_of_not_lt hcon)] at hv
        exact Option.noConfusion hv
      have hj2 : j < (s.verses.map (mkFlatVerse n s)).length := by
        simpa using hj
      simp only [List.enumFrom_cons, List.flatMap_cons, chapterOffset, List.take_zero,
        List.map_nil, List.sum_nil, Nat.zero_add]
      rw [List.getElem?_append, if_pos hj2, List.getElem?_map, hv]
      simp
    | succ i2 =>
      have hrest : rest[i2]? = some s := by simpa using hs
      have hoff : chapterOffset (s0 :: rest) (i2 + 1)
          = s0.verses.length + chapterOffset rest i2 := by
        simp [chapterOffset, List.take_succ_cons]
      simp only [List.enumFrom_cons, List.flatMap_cons, hoff]
      have hlen : (s0.verses.map (mkFlatVerse n s0)).length = s0.verses.length := by
        simp
      rw [List.getElem?_append_right (by omega)]
      rw [hlen]
      have harith : s0.verses.length + chapterOffset rest i2 + j - s0.verses.length
          = chapterOffset rest i2 + j := by omega
      rw [harith, ih (n + 1) i2 s j v hrest hv]
      have heq : n + 1 + i2 = n + (i2 + 1) := by omega
      rw [heq]

/-- `charsStartWith` succeeds exactly when the needle is an initial
segment. -/
theorem charsStartWith_iff : ∀ (l s : Str), charsStartWith l s = true ↔ ∃ t, l = s ++ t := by
  intro l s
  induction s generalizing l with
  | nil => simpa [charsStartWith] using ⟨l, rfl⟩
  | cons b bs ih =>
    cases l with
    | nil =>
      simp only [charsStartWith, List.cons_append]
      constructor
      · intro h; exact absurd h (by simp)
      · rintro ⟨t, ht⟩; exact absurd ht (by simp)
    | cons a as =>
      simp only [charsStartWith, Bool.and_eq_true, beq_iff_eq, ih as, List.cons_append]
      constructor
      · rintro ⟨rfl, t, rfl⟩; exact ⟨t, rfl⟩
      · rintro ⟨t, ht⟩
        obtain ⟨rfl, rfl⟩ : a = b ∧ as = bs ++ t := by
          constructor
          · exact (List.cons.injEq .. ▸ ht).1
          · exact (List.cons.injEq .. ▸ ht).2
        exact ⟨rfl, t, rfl⟩

/-- `charsContains` succeeds exactly when the needle occurs contiguously. -/
theorem charsContains_iff : ∀ (l s : Str), charsContains l s = true ↔ ∃ p t, l = p ++ s ++ t := by
  intro l s
  induction l with
  | nil =>
    simp only [charsContains, List.isEmpty_iff]
    constructor
    · rintro rfl; exact ⟨[], [], rfl⟩
    · rintro ⟨p, t, h⟩
      rcases List.append_eq_nil.1 h.symm with ⟨h1, rfl⟩
      rcases List.append_eq_nil.1 h1 with ⟨rfl, rfl⟩
      rfl
  | cons a as ih =>
    simp only [charsContains, Bool.or_eq_true, charsStartWith_iff, ih]
    constructor
    · rintro (⟨t, ht⟩ | ⟨p, t, ht⟩)
      · exact ⟨[], t, by simpa using ht⟩
      · exact ⟨a :: p, t, by simp [ht]⟩
    · rintro ⟨p, t, ht⟩
      cases p with
      | nil => exact Or.inl ⟨t, by simpa using ht⟩
      | cons x p2 =>
        right
        have hx : a = x ∧ as = p2 ++ s ++ t := by
          simpa using ht
        exact ⟨p2, t, hx.2⟩

/-- The lowercase-both-then-substring test of the code is exactly the
spec's "contains the query as a case-insensitive substring". -/
theorem keywordMatch_iff_spec (hay q : Str) :
    charsContains (jsToLowerChars hay) (jsToLowerChars q) = true ↔ specCIContains hay q := by
  rw [charsContains_iff]
  constructor
  · rintro ⟨p, t, h⟩
    rw [jsToLowerChars, List.append_assoc] at h
    obtain ⟨l1, l2, rfl, hl1, hl2⟩ := List.map_eq_append_iff.1 h
    obtain ⟨l3, l4, rfl, hl3, hl4⟩ := List.map_eq_append_iff.1 hl2
    refine ⟨l1, l3, l4, by simp, ?_⟩
    show List.map Char.toLower l3 = jsToLowerChars q
    exact hl3
  · rintro ⟨pre, mid, suf, rfl, hmid⟩
    refine ⟨jsToLowerChars pre, jsToLowerChars suf, ?_⟩
    show List.map Char.toLower (pre ++ mid ++ suf)
      = jsToLowerChars pre ++ jsToLowerChars q ++ jsToLowerChars suf
    have hmid2 : List.map Char.toLower mid = jsToLowerChars q := hmid
    simp only [List.map_append, hmid2]
    rfl

/-- A minimal flat verse used for concrete test corpora. -/
def testVerse (n : ℕ) (e : JSEmbedding) : FlatVerse :=
  { surah_id := 1
    surah_name := []
    surah_english := []
    verse_id := n
    text_arabic := []
    text_translation := []
    embedding := e }

/-- On a one-verse index whose verse passes the embedding filter,
`semanticSearch` returns exactly that verse paired with its score. -/
theorem semanticSearch_singleton (q : List ℚ) (v : FlatVerse) (k : ℕ)
    (h : passesFilter v = true) (hk : 1 ≤ k) :
    semanticSearch q [v] k = [(v, cosineSimilarity q (embedArr v.embedding))] := by
  have hs : scoredList q [v] = [(v, cosineSimilarity q (embedArr v.embedding))] := by
    rw [scoredList]
    simp [List.filter_cons, h]
  rw [semanticSearch, sortedScored, hs, List.mergeSort_singleton]
  exact List.take_of_length_le (by simpa using hk)

/-- Swapping `normA` and `normB` does not change the returned quotient. -/
theorem cosFinish_swap (d x y : ℚ) :
    cosFinish (some d, some x, some y) = cosFinish (some d, some y, some x) := by
  simp only [cosFinish]
  rw [mul_comm (Real.sqrt (y : ℝ)) (Real.sqrt (x : ℝ))]

/-- C4: for non-zero vectors `a` and `b` (of the common dimensionality `D`
that all vectors of the data model share), cosine similarity is symmetric:
`cosineSimilarity a b = cosineSimilarity b a`.  (Symmetry in fact needs
neither non-zeroness hypothesis; they are kept because the claim states
them.) -/
theorem cosineSimilarity_symm_of_ne_zero (a b : List ℚ) (hlen : a.length = b.length)
    (ha : ∃ x ∈ a, x ≠ 0) (hb : ∃ x ∈ b, x ≠ 0) :
    cosineSimilarity a b = cosineSimilarity b a := by
  rw [cosineSimilarity, cosineSimilarity, cosLoop, cosLoop,
    cosLoopN_eq a b a.length le_rfl hlen.le,
    cosLoopN_eq b a b.length le_rfl hlen.ge]
  have hswap : Finset.range b.length = Finset.range a.length := by rw [hlen]
  rw [hswap]
  have hdot : ∑ i ∈ Finset.range a.length, b.getD i 0 * a.getD i 0
      = ∑ i ∈ Finset.range a.length, a.getD i 0 * b.getD i 0 :=
    Finset.sum_congr rfl fun i _ => mul_comm _ _
  rw [hdot, cosFinish_swap]

/-- C4 witness: the symmetry theorem applied to the concrete non-zero
vectors `[1,0]` and `[0,1]`. -/
theorem cosineSimilarity_symm_witness :
    cosineSimilarity [1, 0] [0, 1] = cosineSimilarity [0, 1] [1, 0] :=
  cosineSimilarity_symm_of_ne_zero [1, 0] [0, 1] rfl
    ⟨1, by simp⟩ ⟨1, by simp⟩

/-- C5 (amended): when either vector's Euclidean norm is zero (equivalently,
its sum of squares over the scanned indices is zero), `cosineSimilarity`
neither crashes nor returns `0`: it evaluates `0 / 0` and returns NaN
(`none`), and the verse is not skipped (see `c5_counterexample`). -/
theorem cosineSimilarity_zero_norm_nan (a b : List ℚ) (hlen : a.length = b.length)
    (h0 : (∑ i ∈ Finset.range a.length, a.getD i 0 * a.getD i 0) = 0
        ∨ (∑ i ∈ Finset.range b.length, b.getD i 0 * b.getD i 0) = 0) :
    cosineSimilarity a b = none := by
  rw [cosineSimilarity, cosLoop, cosLoopN_eq a b a.length le_rfl hlen.le]
  rcases h0 with h | h
  · rw [h]
    simp [cosFinish, Real.sqrt_zero]
  · rw [hlen, h]
    simp [cosFinish, Real.sqrt_zero]

/-- C5 witness: the zero-norm theorem applied to the concrete vectors
`[1,0]` (the query) and `[0,0]` (a zero embedding). -/
theorem cosineSimilarity_zero_norm_witness : cosineSimilarity [1, 0] [0, 0] = none :=
  cosineSimilarity_zero_norm_nan [1, 0] [0, 0] rfl
    (Or.inr (by norm_num [Finset.sum_range_succ]))

/-- A verse whose embedding is the zero vector of the expected dimension. -/
def zeroNormVerse : FlatVerse := testVerse 1 (JSEmbedding.arr [0, 0])

/-- C5 is false as stated: at query `[1,0]` and the zero embedding `[0,0]`,
the score is neither `0` nor any other number (it is NaN), and the verse is
not skipped — `semanticSearch` keeps it in the result list, NaN score and
all.  The computation does not crash, but it does not yield the documented
`0`-or-skip behaviour the claim describes. -/
theorem c5_counterexample :
    cosineSimilarity [1, 0] [0, 0] ≠ some 0 ∧
    cosineSimilarity [1, 0] [0, 0] = none ∧
    (semanticSearch [1, 0] [zeroNormVerse] 20).map Prod.fst = [zeroNormVerse] := by
  refine ⟨by rw [cs_q10_00]; simp, cs_q10_00, ?_⟩
  rw [semanticSearch_singleton [1, 0] zeroNormVerse 20 rfl (by norm_num)]
  rfl

/-- C2 (amended): `semanticSearch` returns at most `k` results, and exactly
`min k n` where `n` counts the verses passing the code's own filter
(embedding present and an array) — not the spec's stricter notion of a
valid embedding.  Fewer than `k` surviving verses just yields a shorter
list, never an error. -/
theorem semanticSearch_length (q : List ℚ) (idx : List FlatVerse) (k : ℕ) :
    (semanticSearch q idx k).length = min k (idx.filter passesFilter).length ∧
    (semanticSearch q idx k).length ≤ k := by
  constructor
  · rw [semanticSearch, List.length_take, sortedScored, List.length_mergeSort,
      scoredList, List.length_map]
  · rw [semanticSearch]
    exact List.length_take_le k _

/-- A verse whose embedding is an array of the wrong dimensionality
(length 1 instead of the query's 2). -/
def wrongDimVerse : FlatVerse := testVerse 1 (JSEmbedding.arr [1])

/-- C2 is false as stated: for query `[1,0]` (dimensionality 2), an index
holding one verse whose embedding `[1]` is not a vector of the expected
dimensionality, and `k = 1`, the code returns `1` result although
`min k (number of verses with valid embeddings) = min 1 0 = 0`. -/
theorem c2_counterexample :
    (semanticSearch [1, 0] [wrongDimVerse] 1).length = 1 ∧
    (([wrongDimVerse].filter fun v => specValidEmbedding 2 v.embedding).length) = 0 ∧
    (1 : ℕ) ≠ min 1 (([wrongDimVerse].filter fun v => specValidEmbedding 2 v.embedding).length) := by
  have hf : ([wrongDimVerse].filter fun v => specValidEmbedding 2 v.embedding) = [] := by
    decide
  refine ⟨?_, ?_, ?_⟩
  · rw [semanticSearch_singleton [1, 0] wrongDimVerse 1 rfl (by norm_num)]
    rfl
  · rw [hf]
    rfl
  · rw [hf]
    simp

/-- C3 (amended): every result of `semanticSearch` is a verse of the index
whose embedding is present and an array — so verses with missing or
non-array embeddings are excluded (and, the model being total, no input
makes the search throw).  The code does not additionally check that the
array is a numeric vector of the expected dimensionality; see
`c3_counterexample`. -/
theorem semanticSearch_filters_embeddings (q : List ℚ) (idx : List FlatVerse) (k : ℕ)
    (p : FlatVerse × Option ℝ) (hp : p ∈ semanticSearch q idx k) :
    passesFilter p.1 = true ∧ p.1 ∈ idx := by
  rw [semanticSearch] at hp
  have h1 : p ∈ sortedScored q idx := List.mem_of_mem_take hp
  rw [sortedScored] at h1
  have h2 : p ∈ scoredList q idx := List.mem_mergeSort.1 h1
  rw [scoredList] at h2
  obtain ⟨v, hv, rfl⟩ := List.mem_map.1 h2
  have hm := List.mem_filter.1 hv
  exact ⟨hm.2, hm.1⟩

/-- A verse with a well-shaped embedding, used to witness C3. -/
def goodDimVerse : FlatVerse := testVerse 2 (JSEmbedding.arr [1, 0])

/-- C3 witness: the filtering theorem applied to a concrete one-verse run. -/
theorem semanticSearch_filters_witness :
    passesFilter goodDimVerse = true ∧ goodDimVerse ∈ [goodDimVerse] :=
  semanticSearch_filters_embeddings [1, 0] [goodDimVerse] 20
    (goodDimVerse, cosineSimilarity [1, 0] (embedArr goodDimVerse.embedding))
    (by rw [semanticSearch_singleton [1, 0] goodDimVerse 20 rfl (by norm_num)]
        exact List.mem_singleton.2 rfl)

/-- C3 is false as stated: the verse `wrongDimVerse`, whose embedding `[1]`
is an array but not a numeric vector of the expected dimensionality 2, is
not excluded — `semanticSearch` scores it (to NaN) and returns it. -/
theorem c3_counterexample :
    specValidEmbedding 2 wrongDimVerse.embedding = false ∧
    (semanticSearch [1, 0] [wrongDimVerse] 20).map Prod.fst = [wrongDimVerse] := by
  refine ⟨by decide, ?_⟩
  rw [semanticSearch_singleton [1, 0] wrongDimVerse 20 rfl (by norm_num)]
  rfl

/-- C6: the flattening loop of `loadQuranData` produces exactly the
chapter-then-verse concatenation of the corpus, and its length is the sum
of the verse counts of all surahs.  Determinism and idempotence of the
rebuild are immediate: `flattenVerses` is a pure function of the corpus,
so rebuilding from the same corpus yields a syntactically equal list. -/
theorem flattenVerses_length_and_order (surahs : List Surah) :
    flattenVerses surahs = flattenSpec surahs ∧
    (flattenVerses surahs).length = (surahs.map fun s => s.verses.length).sum := by
  refine ⟨flattenVerses_eq_spec surahs, ?_⟩
  rw [flattenVerses_eq_spec, flattenSpec, List.length_flatMap]
  have h1 : (List.length ∘ fun p : ℕ × Surah => List.map (mkFlatVerse p.1 p.2) p.2.verses)
      = fun p : ℕ × Surah => p.2.verses.length := by
    funext p
    simp [Function.comp]
  rw [h1]
  have h2 : List.map (fun p : ℕ × Surah => p.2.verses.length) surahs.enum
      = List.map (fun s => s.verses.length) (List.map Prod.snd surahs.enum) := by
    rw [List.map_map]
    rfl
  rw [h2, List.enum_map_snd]

/-- C7 (amended): in the flattened index, `surah_id` is derived from
position (the 1-based position of the surah in corpus order), but
`verse_id` is copied from the stored field `verse.id` of the source data —
it equals the 1-based position of the verse within its chapter exactly
when the stored ids do (which the real corpus satisfies, but nothing in
the code derives or enforces). -/
theorem flattenVerses_positions (surahs : List Surah) (i j : ℕ) (s : Surah) (v : QVerse)
    (hs : surahs[i]? = some s) (hv : s.verses[j]? = some v) :
    (flattenVerses surahs)[chapterOffset surahs i + j]? = some (mkFlatVerse i s v) ∧
    (mkFlatVerse i s v).surah_id = i + 1 ∧
    (mkFlatVerse i s v).verse_id = v.id ∧
    (v.id = j + 1 → (mkFlatVerse i s v).verse_id = j + 1) := by
  refine ⟨?_, rfl, rfl, fun h => h⟩
  rw [flattenVerses_eq_spec, flattenSpec]
  have h := flattenSpec_aux surahs 0 i s j v hs hv
  simpa using h

/-- A one-verse surah whose verse id agrees with its position. -/
def unitVerse : QVerse :=
  { id := 1, text := [], translation := [], embedding := JSEmbedding.missing }

/-- A surah wrapping `unitVerse`. -/
def unitSurah : Surah :=
  { name := [], transliteration := [], translation := [], type := []
    total_verses := 1, verses := [unitVerse] }

/-- C7 witness: the positional theorem applied to the concrete one-surah,
one-verse corpus `[unitSurah]`. -/
theorem flattenVerses_positions_witness :
    (flattenVerses [unitSurah])[chapterOffset [unitSurah] 0 + 0]?
      = some (mkFlatVerse 0 unitSurah unitVerse) ∧
    (mkFlatVerse 0 unitSurah unitVerse).surah_id = 0 + 1 ∧
    (mkFlatVerse 0 unitSurah unitVerse).verse_id = unitVerse.id ∧
    (unitVerse.id = 0 + 1 → (mkFlatVerse 0 unitSurah unitVerse).verse_id = 0 + 1) :=
  flattenVerses_positions [unitSurah] 0 0 unitSurah unitVerse (by simp)
    (by simp [unitSurah])

/-- A verse whose stored id (7) disagrees with its 1-based position (1). -/
def driftVerse : QVerse :=
  { id := 7, text := [], translation := [], embedding := JSEmbedding.missing }

/-- A surah wrapping `driftVerse`. -/
def driftSurah : Surah :=
  { name := [], transliteration := [], translation := [], type := []
    total_verses := 1, verses := [driftVerse] }

/-- C7 is false as stated: flattening a corpus whose only verse carries the
stored id `7` produces `verse_id = 7`, although the verse's 1-based
position within its chapter is `1` — `verse_id` is not derived from
position but copied from a stored field that can desync. -/
theorem c7_counterexample :
    (flattenVerses [driftSurah]).map FlatVerse.verse_id = [7] ∧ (7 : ℕ) ≠ 1 := by
  exact ⟨by decide, by decide⟩

/-- C8: on any state, calling `getQueryEmbedding` twice with the identical
text returns identical results, the second call leaves the state untouched
(it is served from the query-embedding cache with no recomputation), and
across both calls the underlying model runs at most once. -/
theorem getQueryEmbedding_cached (s : AppState) (q : Str) :
    (getQueryEmbedding (getQueryEmbedding s q).2 q).1 = (getQueryEmbedding s q).1 ∧
    (getQueryEmbedding (getQueryEmbedding s q).2 q).2 = (getQueryEmbedding s q).2 ∧
    (getQueryEmbedding s q).2.modelCalls ≤ s.modelCalls + 1 := by
  rcases hl : cacheRead s.cache q with _ | v
  · rcases he : s.embedder with _ | f
    · simp [getQueryEmbedding, hl, he]
    · have h2 : cacheRead ((q, f q) :: s.cache) q = some (JSCacheValue.vec (f q)) := by
        rw [cacheRead]
        simp [List.lookup]
      simp [getQueryEmbedding, hl, he, h2]
  · simp [getQueryEmbedding, hl]

/-- While the embedder has not been successfully initialized, the query
cache is empty in every reachable state: cache entries are only written
after a successful model run, which requires the embedder. -/
theorem cache_empty_of_no_embedder {s : AppState} (hr : Reachable s) :
    s.embedder = none → s.cache = [] := by
  induction hr with
  | start => intro _; rfl
  | embedCall s q _ ih =>
    rcases hl : cacheRead s.cache q with _ | v
    · rcases he : s.embedder with _ | f
      · have hid : (getQueryEmbedding s q).2 = s := by
          simp [getQueryEmbedding, hl, he]
        rw [hid]
        exact ih
      · intro h
        have : (getQueryEmbedding s q).2.embedder = some f := by
          simp [getQueryEmbedding, hl, he]
        rw [h] at this
        exact Option.noConfusion this
    · have hid : (getQueryEmbedding s q).2 = s := by
        simp [getQueryEmbedding, hl]
      rw [hid]
      exact ih
  | modelReady s f _ _ =>
    intro h
    exact Option.noConfusion h

/-- C9 (amended): in any reachable state in which model initialization has
not yet completed successfully (`embedder = none`), `getQueryEmbedding`
fails with the model-not-ready error instead of returning a value — for
every query text except the dozen names of inherited `Object.prototype`
members.  For those texts the cache check's truthy prototype hit returns
the inherited member (a function or object, not a vector) without ever
reaching the `!embedder` check; see `c9_counterexample`. -/
theorem getQueryEmbedding_fails_before_ready (s : AppState) (q : Str)
    (hr : Reachable s) (h : s.embedder = none) (hq : q ∉ protoKeys) :
    (getQueryEmbedding s q).1 = Except.error EmbedError.modelNotReady := by
  have hc : s.cache = [] := cache_empty_of_no_embedder hr h
  simp [getQueryEmbedding, cacheRead, hc, h, hq, List.lookup]

/-- C9 witness: the not-ready theorem applied to the initial state and the
concrete query `"mercy"` (not a prototype key). -/
theorem getQueryEmbedding_fails_witness :
    (getQueryEmbedding initialState ("mercy".toList)).1
      = Except.error EmbedError.modelNotReady :=
  getQueryEmbedding_fails_before_ready initialState ("mercy".toList) Reachable.start rfl
    (by decide)

/-- C9 is false as stated: called before initialization has completed (the
initial state, where `embedder` is still null), with the query text
`"toString"`, the cache check `if (queryEmbeddingCache[query])` hits the
inherited, truthy `Object.prototype.toString` on the fresh `{}` cache, so
`getQueryEmbedding` returns that member instead of failing with the
model-not-ready error. -/
theorem c9_counterexample :
    initialState.embedder = none ∧
    (getQueryEmbedding initialState ("toString".toList)).1
      = Except.ok JSCacheValue.protoMember ∧
    (getQueryEmbedding initialState ("toString".toList)).1
      ≠ Except.error EmbedError.modelNotReady := by
  have hEq : (getQueryEmbedding initialState ("toString".toList)).1
      = Except.ok JSCacheValue.protoMember := by
    have hm : cacheRead ([] : List (Str × List ℚ)) ("toString".toList)
        = some JSCacheValue.protoMember := by
      rw [cacheRead]
      norm_num [List.lookup]
      decide
    simp only [String.toList] at hm
    simp [getQueryEmbedding, initialState, hm]
  refine ⟨rfl, hEq, ?_⟩
  rw [hEq]
  intro hcon
  exact Except.noConfusion hcon

/-- C10: keyword search matches exactly the verses whose translation
contains the query as a case-insensitive substring, preserves corpus order
among the matches, caps the returned matches at 50, and treats zero
matches as a no-results outcome rather than an error; the result depends
only on the lowercased query, so any two case variants of a query search
identically. -/
theorem keywordSearch_characterization (idx : List FlatVerse) (term : Str) :
    (∀ v, v ∈ keywordMatches idx term ↔
      v ∈ idx ∧ specCIContains v.text_translation term) ∧
    (keywordSearchAndDisplay idx term = KeywordOutcome.noResults ↔
      ∀ v ∈ idx, ¬ specCIContains v.text_translation term) ∧
    (∀ l, keywordSearchAndDisplay idx term = KeywordOutcome.results l →
      l = (keywordMatches idx term).take 50 ∧ l.length ≤ 50 ∧ l.Sublist idx ∧
      ∀ v ∈ l, specCIContains v.text_translation term) ∧
    (∀ term2, jsToLowerChars term = jsToLowerChars term2 →
      keywordSearchAndDisplay idx term = keywordSearchAndDisplay idx term2) := by
  have hmem : ∀ v, v ∈ keywordMatches idx term ↔
      v ∈ idx ∧ specCIContains v.text_translation term := by
    intro v
    rw [keywordMatches, List.mem_filter, keywordMatch_iff_spec]
  refine ⟨hmem, ?_, ?_, ?_⟩
  · by_cases h : 0 < (keywordMatches idx term).length
    · rw [keywordSearchAndDisplay]
      simp only [h, if_pos]
      constructor
      · intro hcon
        exact KeywordOutcome.noConfusion hcon
      · intro hnone
        obtain ⟨v, hv⟩ := List.exists_mem_of_length_pos h
        have := (hmem v).1 hv
        exact absurd this.2 (hnone v this.1)
    · rw [keywordSearchAndDisplay]
      simp only [h, if_neg, if_false]
      constructor
      · intro _ v hv hspec
        have hlen : (keywordMatches idx term).length = 0 := Nat.eq_zero_of_not_pos h
        have hnil : keywordMatches idx term = [] := List.length_eq_zero.1 hlen
        have : v ∈ keywordMatches idx term := (hmem v).2 ⟨hv, hspec⟩
        rw [hnil] at this
        exact List.not_mem_nil v this
      · intro _
        trivial
  · intro l hl
    rw [keywordSearchAndDisplay] at hl
    by_cases h : 0 < (keywordMatches idx term).length
    · simp only [h, if_pos] at hl
      have hl2 : l = (keywordMatches idx term).take 50 :=
        (KeywordOutcome.results.injEq .. ▸ hl).symm
      refine ⟨hl2, ?_, ?_, ?_⟩
      · rw [hl2]
        exact List.length_take_le 50 _
      · rw [hl2]
        exact (List.take_sublist 50 _).trans (List.filter_sublist idx)
      · intro v hv
        rw [hl2] at hv
        have := (hmem v).1 (List.mem_of_mem_take hv)
        exact this.2
    · simp only [h, if_neg, if_false] at hl
      exact KeywordOutcome.noConfusion hl
  · intro term2 h
    have hsame : keywordMatches idx term = keywordMatches idx term2 := by
      rw [keywordMatches, keywordMatches, h]
    rw [keywordSearchAndDisplay, keywordSearchAndDisplay, hsame]

/-- A verse whose translation contains "Mercy" (capital M). -/
def mercyVerse : FlatVerse :=
  { surah_id := 1
    surah_name := []
    surah_english := []
    verse_id := 1
    text_arabic := []
    text_translation := "My Mercy embraces all things".toList
    embedding := JSEmbedding.missing }

/-- C10 witness: the characterization applied to a concrete index; in
particular, searching `"mercy"` and `"MERCY"` against a translation
containing `"Mercy"` gives the same (non-empty) outcome. -/
theorem keywordSearch_witness :
    keywordSearchAndDisplay [mercyVerse] ("mercy".toList)
      = keywordSearchAndDisplay [mercyVerse] ("MERCY".toList) ∧
    keywordSearchAndDisplay [mercyVerse] ("mercy".toList)
      = KeywordOutcome.results [mercyVerse] :=
  ⟨(keywordSearch_characterization [mercyVerse] ("mercy".toList)).2.2.2
      ("MERCY".toList) (by decide),
   by decide⟩

/-- Sorted non-increasingly by relevance: whenever an entry precedes
another and both relevances are actual numbers, the earlier one is at
least as large.  (This is the weakest reasonable reading of "sorted
non-increasing by score" in the presence of NaN scores; on NaN-free lists
it is the usual one.) -/
def ScoreSortedDesc (l : List (FlatVerse × Option ℝ)) : Prop :=
  l.Pairwise fun x y => ∀ rx ry, x.2 = some rx → y.2 = some ry → ry ≤ rx

/-- Stability: any two scored entries with equal relevance that appear in
corpus order in `inp` still appear in that order in `out`. -/
def TiesKeepOrder (inp out : List (FlatVerse × Option ℝ)) : Prop :=
  ∀ x y, x.2 = y.2 → [x, y].Sublist inp → [x, y].Sublist out

/-- C1 (amended): provided every verse surviving the embedding filter gets
an actual numeric relevance (no NaN — e.g. all embeddings have the query's
dimension and neither they nor the query have zero norm), the output of
`semanticSearch` is sorted non-increasingly by relevance, equal-relevance
entries keep their corpus order through the sort, and the returned list is
the first `k` entries of the sorted list. -/
theorem semanticSearch_sorted_stable (q : List ℚ) (idx : List FlatVerse) (k : ℕ)
    (h : ∀ p ∈ scoredList q idx, p.2.isSome = true) :
    ScoreSortedDesc (semanticSearch q idx k) ∧
    TiesKeepOrder (scoredList q idx) (sortedScored q idx) ∧
    semanticSearch q idx k = (sortedScored q idx).take k := by
  have hcongr : (scoredList q idx).mergeSort jsCompareLe
      = (scoredList q idx).mergeSort leByVal :=
    mergeSort_congr fun a ha b hb => jsCompareLe_eq_leByVal (h a ha) (h b hb)
  refine ⟨?_, ?_, rfl⟩
  · have hs := List.sorted_mergeSort leByVal_transitive leByVal_total (scoredList q idx)
    have hs2 : (sortedScored q idx).Pairwise fun a b => leByVal a b = true := by
      rw [sortedScored, hcongr]
      exact hs
    have hs3 : (semanticSearch q idx k).Pairwise fun a b => leByVal a b = true :=
      List.Pairwise.sublist (List.take_sublist k (sortedScored q idx)) hs2
    refine hs3.imp ?_
    intro a b hab rx ry hx hy
    rw [leByVal, hx, hy] at hab
    simpa using hab
  · intro x y hxy hsub
    have hpw : ([x, y] : List (FlatVerse × Option ℝ)).Pairwise
        fun a b => leByVal a b = true := by
      refine List.pairwise_pair.2 ?_
      rw [leByVal, hxy]
      simp
    have hst := List.sublist_mergeSort leByVal_transitive leByVal_total hpw hsub
    rw [sortedScored, hcongr]
    exact hst

/-- Verse with embedding `[1,0]`: relevance `1` against query `[1,0]`. -/
def hiVerse : FlatVerse := testVerse 21 (JSEmbedding.arr [1, 0])

/-- Verse with embedding `[0,1]`: relevance `0` against query `[1,0]`. -/
def loVerse : FlatVerse := testVerse 22 (JSEmbedding.arr [0, 1])

/-- The scored list of the two-verse witness corpus is NaN-free. -/
theorem witness_scored :
    scoredList [1, 0] [hiVerse, loVerse] = [(hiVerse, some 1), (loVerse, some 0)] := by
  rw [scoredList]
  simp only [List.filter_cons, List.filter_nil]
  norm_num [passesFilter, hiVerse, loVerse, testVerse, embedArr, cs_q10_10, cs_q10_01]

/-- C1 witness: the sortedness-and-stability theorem applied to a concrete
two-verse corpus whose relevances are the numbers `1` and `0`. -/
theorem semanticSearch_sorted_witness :
    ScoreSortedDesc (semanticSearch [1, 0] [hiVerse, loVerse] 20) :=
  (semanticSearch_sorted_stable [1, 0] [hiVerse, loVerse] 20
    (by intro p hp
        rw [witness_scored] at hp
        simp only [List.mem_cons, List.not_mem_nil, or_false] at hp
        rcases hp with rfl | rfl <;> rfl)).1

/-- Verse scoring `0` against query `[1,0]`. -/
def cexV1 : FlatVerse := testVerse 1 (JSEmbedding.arr [0, 1])

/-- First zero-embedding verse: NaN relevance against any query. -/
def cexV2 : FlatVerse := testVerse 2 (JSEmbedding.arr [0, 0])

/-- Second zero-embedding verse: NaN relevance against any query. -/
def cexV3 : FlatVerse := testVerse 3 (JSEmbedding.arr [0, 0])

/-- Verse scoring `1` against query `[1,0]`. -/
def cexV4 : FlatVerse := testVerse 4 (JSEmbedding.arr [1, 0])

/-- The scored list of the counterexample corpus: relevances
`[0, NaN, NaN, 1]` in corpus order. -/
theorem cex_scored :
    scoredList [1, 0] [cexV1, cexV2, cexV3, cexV4]
      = [(cexV1, some 0), (cexV2, none), (cexV3, none), (cexV4, some 1)] := by
  rw [scoredList]
  simp only [List.filter_cons, List.filter_nil]
  norm_num [passesFilter, cexV1, cexV2, cexV3, cexV4, testVerse, embedArr,
    cs_q10_01, cs_q10_00, cs_q10_10]

/-- Sorting the counterexample corpus leaves it unchanged: every comparison
the merge sort performs involves a NaN relevance, so the comparator always
answers `0` ("keep order") and the two numeric relevances `0` and `1` are
never compared with each other. -/
theorem cex_sorted :
    sortedScored [1, 0] [cexV1, cexV2, cexV3, cexV4]
      = [(cexV1, some 0), (cexV2, none), (cexV3, none), (cexV4, some 1)] := by
  rw [sortedScored, cex_scored]
  simp [List.mergeSort, List.splitInTwo, List.merge, jsCompareLe, jsSub]

/-- C1 is false as stated: for the query `[1,0]` and the four-verse index
`[cexV1, cexV2, cexV3, cexV4]` (relevances `0`, NaN, NaN, `1` — the NaNs
come from zero-norm embeddings the filter does not remove), the returned
sequence has the entry with relevance `0` before the entry with relevance
`1`, so it is not sorted non-increasingly by score. -/
theorem c1_counterexample :
    ¬ ScoreSortedDesc (semanticSearch [1, 0] [cexV1, cexV2, cexV3, cexV4] 20) := by
  have hout : semanticSearch [1, 0] [cexV1, cexV2, cexV3, cexV4] 20
      = [(cexV1, some 0), (cexV2, none), (cexV3, none), (cexV4, some 1)] := by
    rw [semanticSearch, cex_sorted]
    rfl
  intro hcon
  rw [ScoreSortedDesc, hout] at hcon
  rcases List.pairwise_cons.1 hcon with ⟨h1, _⟩
  have h2 := h1 (cexV4, some 1) (by simp) 0 1 rfl rfl
  norm_num at h2
